import Mathlib

/-!
Verification of the document loading and relevance-ranking pipeline of
`arklex/utils/loader.py` (class `Loader` and the record type `CrawledObject`).

The Python code is shallowly embedded:

* Python strings are `String`; `needle in haystack`, `startswith`, `strip`,
  `split("#")[0]`, `rstrip("/")` and lexicographic string comparison are
  implemented below on `List Char`.
* External collaborators are parameters:
  - the Selenium fetch (`driver.get` + BeautifulSoup parse) is a function
    `fetch : String → Except String Page` giving, per URL, the parsed page
    strings (with their resolved parent-anchor URLs, i.e. `urljoin` already
    applied by the parser) and the list of `<title>` texts, or the message of
    the raised exception;
  - `requests.get` + href extraction in `get_outsource_urls` is
    `links : String → List String` (the resolved candidate hrefs of a page;
    a fetch failure is a page with no links);
  - Python's `set` iteration order (used by `list(set(...))`) is an arbitrary
    deduplicating function `reorder : List String → List String`;
  - `uuid.uuid4()` is a generator `gen : Nat → String`;
  - `RecursiveCharacterTextSplitter.split_text` is `split : String → List String`;
  - the per-format file extractors (PyPDFLoader, Mistral OCR, ...) are
    `extract : String → Except String (String × String)` returning title and
    extracted text, or the raised message;
  - `nx.pagerank` is an abstract score assignment `pr : String → ℚ`; the graph
    construction, node bookkeeping and the descending stable sort of the score
    items are embedded faithfully.
* Python dicts with string keys are association lists with last-write-wins
  update preserving key insertion order, like CPython dicts.
-/

namespace Arklex

/-! ## String primitives (Python semantics) -/

/-- `chPre p l`: the char list `p` is a leading segment of `l`. -/
def chPre : List Char → List Char → Bool
  | [], _ => true
  | _ :: _, [] => false
  | a :: as, b :: bs => a = b && chPre as bs

/-- `chSub n h`: the char list `n` occurs contiguously inside `h`
(Python's `n in h` on strings). -/
def chSub (n : List Char) : List Char → Bool
  | [] => chPre n []
  | c :: t => chPre n (c :: t) || chSub n t

/-- Python `needle in haystack` for strings. -/
def strHasSub (needle haystack : String) : Bool := chSub needle.data haystack.data

/-- Python `s.startswith(p)`. -/
def pyStartsWith (s p : String) : Bool := chPre p.data s.data

/-- Truthiness of Python `s.strip()`: `s` has a non-whitespace character. -/
def hasNonWS (s : String) : Bool := s.data.any (fun c => !c.isWhitespace)

/-- Lexicographic comparison of char lists by code point, as Python compares
strings. -/
def lexLe : List Char → List Char → Bool
  | [], _ => true
  | _ :: _, [] => false
  | a :: as, b :: bs =>
    if a.toNat < b.toNat then true
    else if b.toNat < a.toNat then false
    else lexLe as bs

/-- Python `a <= b` on strings. -/
def strLe (a b : String) : Bool := lexLe a.data b.data

/-- The ordering relation used to model Python's `sorted` on strings. -/
def strLeP (a b : String) : Prop := strLe a b = true

instance : DecidableRel strLeP := fun a b => by unfold strLeP; infer_instance

/-- Python `sorted` on a list of strings (stable; irrelevant here since it is
only applied to duplicate-free lists). -/
def pySorted (l : List String) : List String := List.insertionSort strLeP l

/-- Python `s.split("#")[0]`: the part of the char list before the first `'#'`. -/
def beforeHash : List Char → List Char
  | [] => []
  | c :: cs => if c = '#' then [] else c :: beforeHash cs

/-- Python `s.rstrip("/")` on a char list. -/
def rstripSlash (l : List Char) : List Char :=
  (l.reverse.dropWhile (fun c => c = '/')).reverse

/-- `url.split("#")[0].rstrip("/")` — the URL normalization used by
`get_all_urls` and `get_outsource_urls`. -/
def normalizeUrl (s : String) : String := ⟨rstripSlash (beforeHash s.data)⟩

/-- Python slice `l[:k]` for an `int` bound `k` (negative bounds count from the
end). -/
def pySlice (l : List String) (k : Int) : List String :=
  if 0 ≤ k then l.take k.toNat else l.take ((l.length : Int) + k).toNat

/-- `Path(p).name`: the part of the path after the last `'/'`. -/
def pathName (p : String) : String :=
  ⟨(p.data.reverse.takeWhile (fun c => c ≠ '/')).reverse⟩

/-- `Path(p).suffix.lstrip(".")`: the extension of the file name after its last
dot; empty when the name has no dot or only a leading dot. -/
def fileType (p : String) : String :=
  let name := (pathName p).data
  let revExt := name.reverse.takeWhile (fun c => c ≠ '.')
  if revExt.length = name.length then "" else
  if revExt.length + 1 = name.length ∧ name.headD ' ' = '.' then "" else
  ⟨revExt.reverse⟩

/-! ## Python dict / set helpers -/

/-- Lookup in an association list (first match). -/
def alookup {α : Type} : List (String × α) → String → Option α
  | [], _ => none
  | (k0, v) :: rest, k => if k0 = k then some v else alookup rest k

/-- CPython dict update `m[k] = v`: replace in place if the key exists,
otherwise append. -/
def dictUpd {α : Type} : List (String × α) → String → α → List (String × α)
  | [], k, v => [(k, v)]
  | (k0, v0) :: rest, k, v =>
    if k0 = k then (k0, v) :: rest else (k0, v0) :: dictUpd rest k v

/-- Add a node id to a list if absent (networkx node bookkeeping: first
insertion fixes the position). -/
def addNode (acc : List String) (i : String) : List String :=
  if i ∈ acc then acc else acc ++ [i]

/-- Deduplication keeping the first occurrence of each element. -/
def dedupFirst (l : List String) : List String := l.foldl addNode []

/-- Swap the first two elements of a list (a membership- and
duplicate-freeness-preserving reordering, used to witness that Python `set`
iteration order is unspecified). -/
def swapTwo : List String → List String
  | a :: b :: t => b :: a :: t
  | l => l

/-- A function behaves like Python's `list(set(...))`: it keeps exactly the
members of its input, without duplicates. -/
def SetLike (reorder : List String → List String) : Prop :=
  ∀ l : List String, (∀ x, x ∈ reorder l ↔ x ∈ l) ∧ (reorder l).Nodup

/-! ## Data model -/

/-- `SourceType` enum of the loader. -/
inductive SourceType : Type
  | WEB : SourceType
  | FILE : SourceType
  | TEXT : SourceType
deriving DecidableEq

/-- `DocObject`: a pending locator (id, source). -/
structure DocObject : Type where
  id : String
  source : String
deriving DecidableEq

/-- `CrawledObject` (spec name: DocumentRecord), with `content` and
`error_message` optional as in the Python `None` convention and `metadata` a
string-keyed dict. -/
structure CrawledObject : Type where
  id : String
  source : String
  content : Option String
  metadata : List (String × String)
  is_chunk : Bool
  is_error : Bool
  error_message : Option String
  source_type : SourceType
deriving DecidableEq

/-- One string node of a parsed page: either the text of a string that has a
parent `<a>` element, together with the absolute URL its href resolves to
(`urljoin(page_url, href)` as computed by the external parser), or a plain
string. -/
inductive PageStr : Type
  | anchored : String → String → PageStr
  | plain : String → PageStr
deriving DecidableEq

/-- A parsed page: its strings in document order and the texts of its
`<title>` elements in document order. -/
structure Page : Type where
  strings : List PageStr
  titles : List String
deriving DecidableEq

/-- The langchain `Document` shape produced by `chunk`: the chunk text and the
`"source"` metadata entry. -/
structure Document : Type where
  page_content : String
  source : String
deriving DecidableEq

/-! ## Crawler (`Loader.crawl_urls`, lines 134–215) -/

/-- The `text_list` built by the string loop of `crawl_urls` (lines 172–182):
an anchored string contributes `f"{string} {href}"` when its resolved href
starts with the page URL and is dropped otherwise; a plain string contributes
itself when it has non-whitespace content. -/
def crawlTextList (source : String) : List PageStr → List String
  | [] => []
  | PageStr.anchored s href :: rest =>
    if pyStartsWith href source then (s ++ " " ++ href) :: crawlTextList source rest
    else crawlTextList source rest
  | PageStr.plain s :: rest =>
    if hasNonWS s then s :: crawlTextList source rest
    else crawlTextList source rest

/-- Python `"\n".join(...)`. -/
def joinNL : List String → String
  | [] => ""
  | [s] => s
  | s :: rest => s ++ "\n" ++ joinNL rest

/-- `"\n".join(text_list)` over the extracted strings. -/
def extractText (source : String) (p : Page) : String :=
  joinNL (crawlTextList source p.strings)

/-- Title selection of `crawl_urls` (lines 185–188): the text of the first
`<title>` element, else the source URL. -/
def pageTitle (source : String) (p : Page) : String :=
  match p.titles with
  | [] => source
  | t :: _ => t

/-- One iteration of the `crawl_urls` loop: fetch and parse the URL; on
success build a WEB record with the extracted text, on any exception build an
error record carrying the message (lines 164–213). -/
def crawlOne (fetch : String → Except String Page) (url_obj : DocObject) :
    CrawledObject :=
  match fetch url_obj.source with
  | Except.ok p =>
      { id := url_obj.id
        source := url_obj.source
        content := some (extractText url_obj.source p)
        metadata := [("title", pageTitle url_obj.source p), ("source", url_obj.source)]
        is_chunk := false
        is_error := false
        error_message := none
        source_type := SourceType.WEB }
  | Except.error err =>
      { id := url_obj.id
        source := url_obj.source
        content := none
        metadata := [("title", url_obj.source), ("source", url_obj.source)]
        is_chunk := false
        is_error := true
        error_message := some err
        source_type := SourceType.WEB }

/-- `Loader.crawl_urls`: the `docs` accumulator loop over the url objects. -/
def crawl_urls (fetch : String → Except String Page) (url_objects : List DocObject) :
    List CrawledObject :=
  url_objects.foldl (fun docs url_obj => docs ++ [crawlOne fetch url_obj]) []

/-- `Loader.to_crawled_url_objs`: wrap each URL with a fresh id (`uuid.uuid4`
modelled by the generator `gen`) and crawl. -/
def to_crawled_url_objs (gen : Nat → String) (fetch : String → Except String Page)
    (url_list : List String) : List CrawledObject :=
  crawl_urls fetch (url_list.enum.map (fun p => DocObject.mk (gen p.1) p.2))

/-! ## FrontierExplorer (`Loader.get_all_urls` / `get_outsource_urls` /
`_check_url`, lines 217–310) -/

/-- The denylist of `_check_url`. -/
def kwList : List String :=
  [".pdf", ".jpg", ".png", ".docx", ".xlsx", ".pptx", ".zip", ".jpeg"]

/-- `Loader._check_url`: the candidate starts with the base URL, is non-empty,
contains no denylisted extension as a substring, and differs from the base. -/
def check_url (full_url base_url : String) : Bool :=
  pyStartsWith full_url base_url && !(full_url = "") &&
    !(kwList.any (fun kw => strHasSub kw full_url)) && !(full_url = base_url)

/-- `Loader.get_outsource_urls`: resolve the hrefs of the page (external,
`links`), normalize each, keep those passing `_check_url`, and return
`list(set(...))` of the result (`reorder`). A failed HTTP fetch is a page
whose `links` are empty. -/
def get_outsource_urls (links : String → List String)
    (reorder : List String → List String) (curr_url base_url : String) :
    List String :=
  reorder ((links curr_url).filterMap (fun h =>
    let f := normalizeUrl h
    if check_url f base_url then some f else none))

/-- The `while urls_to_visit` loop of `get_all_urls` (lines 237–245): stop on
an empty queue or once `max_num` URLs are visited; pop the front; skip it if
already visited, otherwise visit it, extend the queue with its outsource URLs
and rebuild the queue as `list(set(...))` (`reorder`). -/
def crawlLoop (links : String → List String) (reorder : List String → List String)
    (base_url : String) (max_num : Int) (visited queue : List String) :
    List String :=
  match queue with
  | [] => visited
  | c :: rest =>
    if max_num ≤ (visited.length : Int) then visited
    else if c ∈ visited then crawlLoop links reorder base_url max_num visited rest
    else crawlLoop links reorder base_url max_num (visited ++ [c])
      (reorder (rest ++ get_outsource_urls links reorder c base_url))
termination_by ((max_num - visited.length).toNat, queue.length)

/-- `Loader.get_all_urls`: normalize the base URL, run the discovery loop from
it, truncate the visited list to `max_num` and sort it. -/
def get_all_urls (links : String → List String)
    (reorder : List String → List String) (base_url : String) (max_num : Int) :
    List String :=
  let b := normalizeUrl base_url
  pySorted (pySlice (crawlLoop links reorder b max_num [] [b]) max_num)

/-! ## LinkGraphRanker (`Loader.get_candidates_websites`, lines 312–356) -/

/-- The `url_to_id_mapping` dict: `mapping[url.source] = url.id` over all
records, error records included; a repeated source overwrites the id while
keeping the key position, as CPython dicts do. -/
def url_to_id_mapping (urls : List CrawledObject) : List (String × String) :=
  urls.foldl (fun m u => dictUpd m u.source u.id) []

/-- The `nodes` list: one `[url.id, url.to_dict()]` entry per non-error
record, in input order. -/
def buildNodes (urls : List CrawledObject) : List (String × CrawledObject) :=
  (urls.filter (fun u => !u.is_error)).map (fun u => (u.id, u))

/-- The `edges` list: for every non-error record `A` and every key of the
source-to-id mapping occurring in `A.content`, the pair
`(A.id, mapping[key])`. -/
def buildEdges (urls : List CrawledObject) : List (String × String) :=
  (urls.filter (fun u => !u.is_error)).flatMap (fun u =>
    (url_to_id_mapping urls).filterMap (fun p =>
      if strHasSub p.1 (u.content.getD "") then some (u.id, p.2) else none))

/-- The node ids of the networkx digraph in insertion order: `add_nodes_from`
inserts the explicit nodes, then `add_edges_from` silently adds every edge
endpoint not yet present. -/
def graphNodeIds (urls : List CrawledObject) : List String :=
  (buildEdges urls).foldl (fun acc e => addNode (addNode acc e.1) e.2)
    (((buildNodes urls).map Prod.fst).foldl addNode [])

/-- `graph.nodes[i]`: the record stored at an explicit node (last write wins
for a duplicated id), `none` for a node that only exists as an edge endpoint
(its attribute dict is empty, hence falsy). -/
def nodeData (urls : List CrawledObject) (i : String) : Option CrawledObject :=
  (buildNodes urls).foldl (fun acc p => if p.1 = i then some p.2 else acc) none

/-- `Loader.get_candidates_websites` with the numeric PageRank fixed point
abstracted as a score assignment `pr` on node ids: list the scores in node
insertion order, stably sort them descending, take the first `top_k`, look
each id up in the graph and keep the non-empty node dicts. -/
def get_candidates_websites (pr : String → ℚ) (urls : List CrawledObject)
    (top_k : Nat) : List CrawledObject :=
  let ids := graphNodeIds urls
  let sorted_pr := List.insertionSort
    (fun p q : String × ℚ => q.2 ≤ p.2) (ids.map (fun i => (i, pr i)))
  let top_k_websites := sorted_pr.take top_k
  (top_k_websites.map (fun p => nodeData urls p.1)).filterMap (fun d => d)

/-! ## Text and file ingestion (`to_crawled_text`, `crawl_file`,
`to_crawled_local_objs`, lines 358–536) -/

/-- `Loader.to_crawled_text`: wrap each string as a TEXT record with a fresh
id, source `"text"` and empty metadata. -/
def to_crawled_text (gen : Nat → String) (text_list : List String) :
    List CrawledObject :=
  text_list.enum.map (fun p =>
    { id := gen p.1
      source := "text"
      content := some p.2
      metadata := []
      is_chunk := false
      is_error := false
      error_message := none
      source_type := SourceType.TEXT })

/-- `Loader.crawl_file` with the format-specific extraction delegated to
`extract` (returning the title and the extracted text, or the raised
message): an empty detected file type raises `FileNotFoundError` inside the
`try`, and every caught exception yields an error record whose metadata holds
only the file name as title. -/
def crawl_file (extract : String → Except String (String × String))
    (local_obj : DocObject) : CrawledObject :=
  let file_name := pathName local_obj.source
  if fileType local_obj.source = "" then
    { id := local_obj.id
      source := local_obj.source
      content := none
      metadata := [("title", file_name)]
      is_chunk := false
      is_error := true
      error_message := some ("No file type detected for file: " ++ local_obj.source)
      source_type := SourceType.FILE }
  else
    match extract local_obj.source with
    | Except.ok (title, text) =>
        { id := local_obj.id
          source := local_obj.source
          content := some text
          metadata := [("title", title), ("source", local_obj.source)]
          is_chunk := false
          is_error := false
          error_message := none
          source_type := SourceType.FILE }
    | Except.error err =>
        { id := local_obj.id
          source := local_obj.source
          content := none
          metadata := [("title", file_name)]
          is_chunk := false
          is_error := true
          error_message := some err
          source_type := SourceType.FILE }

/-- `Loader.to_crawled_local_objs`: wrap each path with a fresh id and crawl
the file. -/
def to_crawled_local_objs (gen : Nat → String)
    (extract : String → Except String (String × String)) (file_list : List String) :
    List CrawledObject :=
  file_list.enum.map (fun p => crawl_file extract (DocObject.mk (gen p.1) p.2))

/-! ## Chunker (`Loader.chunk`, lines 552–596) -/

/-- The fresh chunk record built for piece `i` of a parent (lines 584–591). -/
def mkChunk (parent : CrawledObject) (i : Nat) (txt : String) : CrawledObject :=
  { id := parent.id ++ "_" ++ toString i
    source := parent.source
    content := some txt
    metadata := parent.metadata
    is_chunk := true
    is_error := false
    error_message := none
    source_type := parent.source_type }

/-- One iteration of the `chunk` loop over `(docs, langchain_docs)`: error or
content-less records are skipped; already-chunked records are appended
unchanged to `docs` only; otherwise the split pieces are appended as fresh
chunk records to `docs` and as langchain documents to `langchain_docs`. -/
def chunkStep (split : String → List String)
    (acc : List CrawledObject × List Document) (doc_obj : CrawledObject) :
    List CrawledObject × List Document :=
  if doc_obj.is_error || doc_obj.content.isNone then acc
  else if doc_obj.is_chunk then (acc.1 ++ [doc_obj], acc.2)
  else
    let ts := (split (doc_obj.content.getD "")).enum
    (acc.1 ++ ts.map (fun p => mkChunk doc_obj p.1 p.2),
      acc.2 ++ ts.map (fun p => Document.mk p.2 doc_obj.source))

/-- The `(docs, langchain_docs)` pair built by the `chunk` loop. -/
def chunkAux (split : String → List String) (doc_objs : List CrawledObject) :
    List CrawledObject × List Document :=
  doc_objs.foldl (chunkStep split) ([], [])

/-- `Loader.chunk`: the function returns `langchain_docs`; the `docs` record
list is built but not returned. -/
def chunk (split : String → List String) (doc_objs : List CrawledObject) :
    List Document :=
  (chunkAux split doc_objs).2

/-! ## Per-record contributions of the chunk loop (used to characterize the
fold) -/

/-- What a single input record contributes to the `docs` list of `chunk`. -/
def contribDocs (split : String → List String) (r : CrawledObject) :
    List CrawledObject :=
  if r.is_error || r.content.isNone then []
  else if r.is_chunk then [r]
  else ((split (r.content.getD "")).enum).map (fun p => mkChunk r p.1 p.2)

/-- What a single input record contributes to the returned `langchain_docs`
list of `chunk`. -/
def contribLC (split : String → List String) (r : CrawledObject) : List Document :=
  if r.is_error || r.content.isNone then []
  else if r.is_chunk then []
  else (split (r.content.getD "")).map (fun t => Document.mk t r.source)

/-- The id of the last record of the batch carrying a given source string
(what the `url_to_id_mapping` dict ends up storing for that source). -/
def lastSourceId (urls : List CrawledObject) (s : String) : Option String :=
  ((urls.filter (fun u => u.source = s)).map (fun u => u.id)).getLast?

/-- The record-level invariant of §3 of the spec: the error flag, the error
message and the absence of content go together. -/
def recordInv (r : CrawledObject) : Prop :=
  (r.is_error = true ↔ r.error_message ≠ none) ∧ (r.content = none ↔ r.is_error = true)

instance (r : CrawledObject) : Decidable (recordInv r) := by
  unfold recordInv; infer_instance

/-- Python `s.endswith(p)`. -/
def pyEndsWith (s p : String) : Bool := chPre p.data.reverse s.data.reverse

/-- Rotate a list left by one (another unspecified `set` iteration order). -/
def rotL : List String → List String
  | [] => []
  | a :: t => t ++ [a]

/-! ## Concrete instances used by counterexamples and witnesses -/

/-- A two-record ranking batch: a non-error page whose content mentions the
source of an error record. -/
def urlsRank : List CrawledObject :=
  [{ id := "a", source := "http://a", content := some "see http://b",
     metadata := [], is_chunk := false, is_error := false,
     error_message := none, source_type := SourceType.WEB },
   { id := "b", source := "http://b", content := none,
     metadata := [], is_chunk := false, is_error := true,
     error_message := some "boom", source_type := SourceType.WEB }]

/-- A concrete link structure: the base page links to three children, the
first child links back to the third. -/
def linksW : String → List String := fun s =>
  if s = "http://s" then ["http://s/1", "http://s/2", "http://s/3"]
  else if s = "http://s/1" then ["http://s/3"]
  else []

/-- A `list(set(...))` order: keep first occurrences. -/
def reorderA : List String → List String := dedupFirst

/-- Another `list(set(...))` order: keep first occurrences, then rotate. -/
def reorderB : List String → List String := fun l => rotL (dedupFirst l)

/-- A concrete fetch: one good page, every other URL raises. -/
def fetchW : String → Except String Page := fun s =>
  if s = "http://ok" then Except.ok (Page.mk [PageStr.plain "hello"] ["T"])
  else Except.error "boom"

/-- A two-locator batch for `crawl_urls`, the second of which raises. -/
def objsW : List DocObject :=
  [DocObject.mk "1" "http://ok", DocObject.mk "2" "http://bad"]

/-- A page whose only string is anchored to a foreign site. -/
def fetchExt : String → Except String Page := fun _ =>
  Except.ok (Page.mk [PageStr.anchored "click" "http://other/x"] [])

/-- A page mixing same-site and foreign anchors, whitespace and plain
strings, with two titles. -/
def fetchMix : String → Except String Page := fun _ =>
  Except.ok (Page.mk
    [PageStr.anchored "in" "http://me/a", PageStr.anchored "out" "http://x/b",
     PageStr.plain "  ", PageStr.plain "body"] ["Ti", "T2"])

/-- The identity splitter. -/
def splitW : String → List String := fun s => [s]

/-- A splitter producing three pieces. -/
def splitThree : String → List String := fun _ => ["a", "b", "c"]

/-- An already-chunked, well-formed record. -/
def chunkRecW : CrawledObject :=
  { id := "c0", source := "s0", content := some "x", metadata := [],
    is_chunk := true, is_error := false, error_message := none,
    source_type := SourceType.TEXT }

/-- A parent record with the id of the spec's chunking example. -/
def parentW : CrawledObject :=
  { id := "doc1", source := "src", content := some "abcd",
    metadata := [("k", "v")], is_chunk := false, is_error := false,
    error_message := none, source_type := SourceType.FILE }

/-- A deterministic id generator standing in for `uuid.uuid4`. -/
def genW : Nat → String := fun n => "u" ++ toString n

/-- A file extractor that always raises. -/
def extractFailW : String → Except String (String × String) := fun _ =>
  Except.error "nope"

/-- A file extractor that always succeeds. -/
def extractOkW : String → Except String (String × String) := fun _ =>
  Except.ok ("T", "txt")

/-- A constant score assignment (ties everywhere). -/
def prZero : String → ℚ := fun _ => 0

/-- A well-formed two-record ranking batch: two non-error pages, the first
referencing the second's source in its content. -/
def urlsGood : List CrawledObject :=
  [{ id := "a", source := "http://a", content := some "see http://b",
     metadata := [], is_chunk := false, is_error := false,
     error_message := none, source_type := SourceType.WEB },
   { id := "b", source := "http://b", content := some "hello",
     metadata := [], is_chunk := false, is_error := false,
     error_message := none, source_type := SourceType.WEB }]

/-! # General lemmas -/

theorem foldl_append_map {α β : Type} (f : α → β) :
    ∀ (l : List α) (acc : List β),
      l.foldl (fun d o => d ++ [f o]) acc = acc ++ l.map f := by
  intro l
  induction l with
  | nil => intro acc; simp
  | cons x xs ih => intro acc; simp [ih]

theorem crawl_urls_eq_map (fetch : String → Except String Page)
    (url_objects : List DocObject) :
    crawl_urls fetch url_objects = url_objects.map (crawlOne fetch) := by
  unfold crawl_urls
  simpa using foldl_append_map (crawlOne fetch) url_objects []

theorem chunkStep_eq (split : String → List String)
    (acc : List CrawledObject × List Document) (r : CrawledObject) :
    chunkStep split acc r = (acc.1 ++ contribDocs split r, acc.2 ++ contribLC split r) := by
  have hmap : ∀ (l : List String) (s : String),
      l.enum.map (fun p => Document.mk p.2 s) = l.map (fun t => Document.mk t s) := by
    intro l s
    calc l.enum.map (fun p => Document.mk p.2 s)
        = (l.enum.map Prod.snd).map (fun t => Document.mk t s) := by
          rw [List.map_map]; rfl
      _ = l.map (fun t => Document.mk t s) := by rw [List.enum_map_snd]
  unfold chunkStep contribDocs contribLC
  by_cases h1 : r.is_error || r.content.isNone
  · simp [h1]
  · by_cases h2 : r.is_chunk
    · simp [h1, h2]
    · simp [h1, h2, hmap]

theorem chunkAux_fold (split : String → List String) :
    ∀ (doc_objs : List CrawledObject) (acc : List CrawledObject × List Document),
      doc_objs.foldl (chunkStep split) acc =
        (acc.1 ++ doc_objs.flatMap (contribDocs split),
         acc.2 ++ doc_objs.flatMap (contribLC split)) := by
  intro doc_objs
  induction doc_objs with
  | nil => intro acc; simp
  | cons x xs ih =>
    intro acc
    simp only [List.foldl_cons, chunkStep_eq, ih, List.flatMap_cons, List.append_assoc]

theorem chunkAux_eq (split : String → List String) (doc_objs : List CrawledObject) :
    chunkAux split doc_objs =
      (doc_objs.flatMap (contribDocs split), doc_objs.flatMap (contribLC split)) := by
  unfold chunkAux
  simpa using chunkAux_fold split doc_objs ([], [])

theorem flatMap_filter_eq {α β : Type} (p : α → Bool) (f : α → List β)
    (h : ∀ r, p r = false → f r = []) :
    ∀ l : List α, (l.filter p).flatMap f = l.flatMap f := by
  intro l
  induction l with
  | nil => rfl
  | cons x xs ih =>
    by_cases hx : p x
    · simp [List.filter_cons, hx, ih]
    · simp only [Bool.not_eq_true] at hx
      simp [List.filter_cons, hx, ih, h x hx]

/-! # Claim C2 — chunk idempotence and the returned normalized list -/

/-- Refutation of C2 as stated: an already-chunked, well-formed record does
not pass through into the output of `chunk` — the returned list is empty, so
it contains nothing corresponding to the record. -/
theorem c2_counterexample :
    chunkRecW.is_chunk = true ∧ chunkRecW.is_error = false ∧
    chunkRecW.content = some "x" ∧ chunk splitW [chunkRecW] = [] := by
  decide

/-- C2 (amended): error or content-less records are dropped from both lists
of `chunk`; an `is_chunk=true` record is not re-split — it is appended
unchanged to the internal `docs` record list — but it is excluded from the
returned normalized `langchain_docs` list, which only fresh splits feed. -/
theorem c2_chunk_not_resplit (split : String → List String)
    (doc_objs : List CrawledObject) :
    chunk split doc_objs =
      chunk split (doc_objs.filter (fun r => !(r.is_error || r.content.isNone))) ∧
    chunk split doc_objs = chunk split (doc_objs.filter (fun r => !r.is_chunk)) ∧
    (∀ r ∈ doc_objs, r.is_chunk = true → r.is_error = false →
      r.content.isNone = false →
      r ∈ (chunkAux split doc_objs).1 ∧ contribDocs split r = [r]) := by
  refine ⟨?_, ?_, ?_⟩
  · unfold chunk
    rw [chunkAux_eq, chunkAux_eq]
    have := flatMap_filter_eq (fun r => !(r.is_error || r.content.isNone))
      (contribLC split) ?_ doc_objs
    · rw [this]
    · intro r hr
      simp only [Bool.not_eq_false'] at hr
      unfold contribLC
      simp [hr]
  · unfold chunk
    rw [chunkAux_eq, chunkAux_eq]
    have := flatMap_filter_eq (fun r => !r.is_chunk) (contribLC split) ?_ doc_objs
    · rw [this]
    · intro r hr
      simp only [Bool.not_eq_false'] at hr
      unfold contribLC
      by_cases h1 : r.is_error || r.content.isNone
      · simp [h1]
      · simp [h1, hr]
  · intro r hr hchunk herr hcont
    have hd : contribDocs split r = [r] := by
      unfold contribDocs
      simp [herr, hcont, hchunk]
    refine ⟨?_, hd⟩
    rw [chunkAux_eq]
    simp only [List.mem_flatMap]
    exact ⟨r, hr, by rw [hd]; exact List.mem_singleton.mpr rfl⟩

/-- Witness for C2 (amended) at a concrete already-chunked record. -/
theorem c2_chunk_not_resplit_witness :
    chunkRecW ∈ [chunkRecW] ∧ chunkRecW.is_chunk = true ∧
    chunkRecW.is_error = false ∧ chunkRecW.content.isNone = false ∧
    (chunkRecW ∈ (chunkAux splitW [chunkRecW]).1 ∧
      contribDocs splitW chunkRecW = [chunkRecW]) :=
  ⟨by decide, by decide, by decide, by decide,
    (c2_chunk_not_resplit splitW [chunkRecW]).2.2 chunkRecW (by decide)
      (by decide) (by decide) (by decide)⟩

/-! # Claim C7 — chunk ids and fields -/

/-- C7: the `docs` record list built by `chunk` is the concatenation of the
per-record contributions, and the contribution of a non-error, non-chunk
parent with content `c` split into `n` pieces is exactly the records with ids
`{parent_id}_0 … {parent_id}_{n-1}` (0-based, contiguous, strictly
increasing), `is_chunk=true`, the parent's source, metadata and source_type,
and content the corresponding text slice. -/
theorem c7_chunk_ids (split : String → List String)
    (doc_objs : List CrawledObject) :
    (chunkAux split doc_objs).1 = doc_objs.flatMap (contribDocs split) ∧
    (∀ (r : CrawledObject) (c : String), r.is_error = false → r.is_chunk = false →
      r.content = some c →
      contribDocs split r = ((split c).enum).map (fun p =>
        { id := r.id ++ "_" ++ toString p.1
          source := r.source
          content := some p.2
          metadata := r.metadata
          is_chunk := true
          is_error := false
          error_message := none
          source_type := r.source_type })) := by
  constructor
  · rw [chunkAux_eq]
  · intro r c herr hchunk hcont
    unfold contribDocs
    simp [herr, hchunk, hcont, mkChunk]

/-- Witness for C7 at the spec's example: parent id `"doc1"` split into three
pieces gets chunk ids `doc1_0`, `doc1_1`, `doc1_2`. -/
theorem c7_chunk_ids_witness :
    parentW.is_error = false ∧ parentW.is_chunk = false ∧
    parentW.content = some "abcd" ∧
    contribDocs splitThree parentW = ((splitThree "abcd").enum).map (fun p =>
      { id := parentW.id ++ "_" ++ toString p.1
        source := parentW.source
        content := some p.2
        metadata := parentW.metadata
        is_chunk := true
        is_error := false
        error_message := none
        source_type := parentW.source_type }) :=
  ⟨rfl, rfl, rfl,
    (c7_chunk_ids splitThree [parentW]).2 parentW "abcd" rfl rfl rfl⟩

/-! # Claim C4 — crawl batch shape and failure isolation -/

/-- C4: `crawl_urls` returns one record per locator, in input order (it is
the pointwise image of the independent per-locator crawl); a locator whose
fetch raises yields an error record carrying the caught message, and a
locator whose fetch succeeds yields a non-error record with content — so one
bad page never aborts the batch. -/
theorem c4_crawl_batch (fetch : String → Except String Page)
    (url_objects : List DocObject) :
    (crawl_urls fetch url_objects).length = url_objects.length ∧
    crawl_urls fetch url_objects = url_objects.map (crawlOne fetch) ∧
    (∀ o ∈ url_objects, ∀ e, fetch o.source = Except.error e →
      crawlOne fetch o =
        { id := o.id, source := o.source, content := none,
          metadata := [("title", o.source), ("source", o.source)],
          is_chunk := false, is_error := true, error_message := some e,
          source_type := SourceType.WEB }) ∧
    (∀ o ∈ url_objects, ∀ p, fetch o.source = Except.ok p →
      (crawlOne fetch o).is_error = false ∧
      (crawlOne fetch o).content = some (extractText o.source p)) := by
  refine ⟨?_, crawl_urls_eq_map fetch url_objects, ?_, ?_⟩
  · rw [crawl_urls_eq_map]; exact List.length_map url_objects (crawlOne fetch)
  · intro o _ e he
    unfold crawlOne
    rw [he]
  · intro o _ p hp
    unfold crawlOne
    rw [hp]
    exact ⟨rfl, rfl⟩

/-- Witness for C4 at a concrete two-locator batch whose second fetch
raises. -/
theorem c4_crawl_batch_witness :
    (crawl_urls fetchW objsW).length = 2 ∧
    crawlOne fetchW (DocObject.mk "2" "http://bad") =
      { id := "2", source := "http://bad", content := none,
        metadata := [("title", "http://bad"), ("source", "http://bad")],
        is_chunk := false, is_error := true, error_message := some "boom",
        source_type := SourceType.WEB } :=
  ⟨(c4_crawl_batch fetchW objsW).1,
   (c4_crawl_batch fetchW objsW).2.2.1 (DocObject.mk "2" "http://bad")
     (by decide) "boom" (by rfl)⟩

/-! # Claim C5 — record invariants across the Loader operations -/

/-- C5: every record produced by `crawl_urls`, `crawl_file` and
`to_crawled_text` satisfies `is_error ↔ error_message present` and
`content = none ↔ is_error`; the records built by `chunk` satisfy it provided
the input batch does (already-chunked inputs are passed through, so their
fields are inherited). -/
theorem c5_record_invariants :
    (∀ (fetch : String → Except String Page) (url_objects : List DocObject),
      ∀ r ∈ crawl_urls fetch url_objects, recordInv r) ∧
    (∀ (extract : String → Except String (String × String)) (local_obj : DocObject),
      recordInv (crawl_file extract local_obj)) ∧
    (∀ (gen : Nat → String) (text_list : List String),
      ∀ r ∈ to_crawled_text gen text_list, recordInv r) ∧
    (∀ (split : String → List String) (doc_objs : List CrawledObject),
      (∀ r ∈ doc_objs, recordInv r) →
      ∀ r ∈ (chunkAux split doc_objs).1, recordInv r) := by
  refine ⟨?_, ?_, ?_, ?_⟩
  · intro fetch url_objects r hr
    rw [crawl_urls_eq_map] at hr
    obtain ⟨o, _, rfl⟩ := List.mem_map.mp hr
    unfold crawlOne
    cases h : fetch o.source <;> simp [recordInv]
  · intro extract local_obj
    unfold crawl_file
    by_cases h : fileType local_obj.source = ""
    · simp [h, recordInv]
    · simp only [h, if_false, ite_false]
      cases hx : extract local_obj.source with
      | ok v => cases v; simp [recordInv]
      | error e => simp [recordInv]
  · intro gen text_list r hr
    unfold to_crawled_text at hr
    obtain ⟨p, _, rfl⟩ := List.mem_map.mp hr
    simp [recordInv]
  · intro split doc_objs hinv r hr
    rw [chunkAux_eq] at hr
    simp only [List.mem_flatMap] at hr
    obtain ⟨a, ha, hra⟩ := hr
    unfold contribDocs at hra
    by_cases h1 : a.is_error || a.content.isNone
    · simp [h1] at hra
    · by_cases h2 : a.is_chunk
      · simp [h1, h2] at hra
        exact hra ▸ hinv a ha
      · simp only [h1, h2, Bool.false_eq_true, if_false, if_true, ite_false,
          ite_true, List.mem_map] at hra
        obtain ⟨p, _, rfl⟩ := hra
        simp [recordInv, mkChunk]

/-- Witness for C5: the invariant instantiated at a failing file crawl and at
a concrete chunk batch whose hypothesis is discharged by evaluation. -/
theorem c5_record_invariants_witness :
    recordInv (crawl_file extractFailW (DocObject.mk "i" "f.txt")) ∧
    (∀ r ∈ (chunkAux splitW [chunkRecW]).1, recordInv r) :=
  ⟨c5_record_invariants.2.1 extractFailW (DocObject.mk "i" "f.txt"),
   c5_record_invariants.2.2.2 splitW [chunkRecW] (by decide)⟩

/-! # Claim C8 — metadata keys of the ingestion entry points -/

/-- Refutation of C8 as stated: `to_crawled_text` produces records with empty
metadata (neither `title` nor `source` present), and the error path of
`crawl_file` stores only the `title` key. -/
theorem c8_counterexample :
    (∀ r ∈ to_crawled_text genW ["hello"], r.metadata = []) ∧
    (to_crawled_text genW ["hello"]).length = 1 ∧
    alookup (crawl_file extractFailW (DocObject.mk "i" "f.txt")).metadata "source"
      = none ∧
    (crawl_file extractFailW (DocObject.mk "i" "f.txt")).metadata
      = [("title", "f.txt")] := by
  decide

/-- C8 (amended): URL ingestion records carry both `title` and `source` keys;
file ingestion records carry both on success but only `title` on failure;
text ingestion records carry an empty metadata mapping. -/
theorem c8_metadata_keys (gen : Nat → String)
    (fetch : String → Except String Page)
    (extract : String → Except String (String × String))
    (url_list text_list : List String) :
    (∀ r ∈ to_crawled_url_objs gen fetch url_list,
      (alookup r.metadata "title").isSome = true ∧
      (alookup r.metadata "source").isSome = true) ∧
    (∀ local_obj : DocObject,
      ((crawl_file extract local_obj).is_error = false →
        (alookup (crawl_file extract local_obj).metadata "title").isSome = true ∧
        (alookup (crawl_file extract local_obj).metadata "source").isSome = true) ∧
      ((crawl_file extract local_obj).is_error = true →
        (crawl_file extract local_obj).metadata
          = [("title", pathName local_obj.source)])) ∧
    (∀ r ∈ to_crawled_text gen text_list, r.metadata = []) := by
  refine ⟨?_, ?_, ?_⟩
  · intro r hr
    unfold to_crawled_url_objs at hr
    rw [crawl_urls_eq_map] at hr
    obtain ⟨o, _, rfl⟩ := List.mem_map.mp hr
    unfold crawlOne
    cases h : fetch o.source <;> simp [alookup]
  · intro local_obj
    unfold crawl_file
    by_cases h : fileType local_obj.source = ""
    · simp [h, alookup]
    · simp only [h, if_false, ite_false]
      cases hx : extract local_obj.source with
      | ok v => cases v; simp [alookup]
      | error e => simp [alookup]
  · intro r hr
    unfold to_crawled_text at hr
    obtain ⟨p, _, rfl⟩ := List.mem_map.mp hr
    rfl

/-- Witness for C8 (amended) at concrete generators, fetchers and
extractors. -/
theorem c8_metadata_keys_witness :
    (∀ r ∈ to_crawled_url_objs genW fetchW ["http://ok", "http://bad"],
      (alookup r.metadata "title").isSome = true ∧
      (alookup r.metadata "source").isSome = true) ∧
    (∀ r ∈ to_crawled_text genW ["hello"], r.metadata = []) :=
  ⟨(c8_metadata_keys genW fetchW extractFailW ["http://ok", "http://bad"] ["hello"]).1,
   (c8_metadata_keys genW fetchW extractFailW ["http://ok", "http://bad"] ["hello"]).2.2⟩

/-! # Substring lemmas for the extracted page text -/

theorem chPre_refl : ∀ l : List Char, chPre l l = true := by
  intro l
  induction l with
  | nil => rfl
  | cons a as ih => simp [chPre, ih]

theorem chPre_extend : ∀ (n h t : List Char), chPre n h = true →
    chPre n (h ++ t) = true := by
  intro n
  induction n with
  | nil => intro h t _; rfl
  | cons a as ih =>
    intro h t hp
    cases h with
    | nil => simp [chPre] at hp
    | cons b bs =>
      simp only [chPre, Bool.and_eq_true] at hp
      simp only [List.cons_append, chPre, Bool.and_eq_true]
      exact ⟨hp.1, ih bs t hp.2⟩

theorem chSub_of_chPre {n h : List Char} (hp : chPre n h = true) :
    chSub n h = true := by
  cases h with
  | nil => exact hp
  | cons c t => simp [chSub, hp]

theorem chSub_nil_left : ∀ l : List Char, chSub [] l = true := by
  intro l
  cases l with
  | nil => rfl
  | cons c t => simp [chSub, chPre]

theorem chSub_append_left {n h : List Char} (hs : chSub n h = true) :
    ∀ a : List Char, chSub n (a ++ h) = true := by
  intro a
  induction a with
  | nil => exact hs
  | cons x a' ih =>
    simp only [List.cons_append, chSub, Bool.or_eq_true]
    exact Or.inr ih

theorem chSub_append_right {n : List Char} :
    ∀ h t : List Char, chSub n h = true → chSub n (h ++ t) = true := by
  intro h
  induction h with
  | nil =>
    intro t hs
    cases n with
    | nil => exact chSub_nil_left t
    | cons a as => simp [chSub, chPre] at hs
  | cons c h' ih =>
    intro t hs
    simp only [chSub, Bool.or_eq_true] at hs
    simp only [List.cons_append, chSub, Bool.or_eq_true]
    cases hs with
    | inl hp =>
      exact Or.inl (by simpa using chPre_extend n (c :: h') t hp)
    | inr hrec => exact Or.inr (ih t hrec)

theorem mem_joinNL : ∀ (l : List String) (x : String), x ∈ l →
    strHasSub x (joinNL l) = true := by
  intro l
  induction l with
  | nil => intro x hx; cases hx
  | cons s rest ih =>
    intro x hx
    cases rest with
    | nil =>
      have hxs : x = s := by simpa using hx
      subst hxs
      exact chSub_of_chPre (chPre_refl x.data)
    | cons r rs =>
      have hjoin : joinNL (s :: r :: rs) = (s ++ "\n") ++ joinNL (r :: rs) := by
        simp [joinNL]
      unfold strHasSub
      rw [hjoin, String.data_append, String.data_append]
      rcases List.mem_cons.mp hx with hxs | hxr
      · subst hxs
        exact chSub_append_right _ _
          (chSub_append_right _ _ (chSub_of_chPre (chPre_refl x.data)))
      · have hrec := ih x hxr
        unfold strHasSub at hrec
        exact chSub_append_left hrec _

theorem mem_crawlTextList (source s href : String) :
    ∀ strings : List PageStr, PageStr.anchored s href ∈ strings →
      pyStartsWith href source = true →
      (s ++ " " ++ href) ∈ crawlTextList source strings := by
  intro strings
  induction strings with
  | nil => intro hx _; cases hx
  | cons p rest ih =>
    intro hx hsw
    cases p with
    | anchored s' h' =>
      rcases List.mem_cons.mp hx with heq | hmem
      · obtain ⟨rfl, rfl⟩ : s' = s ∧ h' = href := by
          injection heq.symm with h1 h2; exact ⟨h1, h2⟩
        simp only [crawlTextList, hsw, if_true, ite_true]
        exact List.mem_cons_self _ _
      · simp only [crawlTextList]
        split
        · exact List.mem_cons_of_mem _ (ih hmem hsw)
        · exact ih hmem hsw
    | plain s' =>
      have hmem : PageStr.anchored s href ∈ rest := by
        rcases List.mem_cons.mp hx with heq | hmem
        · cases heq
        · exact hmem
      simp only [crawlTextList]
      split
      · exact List.mem_cons_of_mem _ (ih hmem hsw)
      · exact ih hmem hsw

/-! # Claim C9 — visible text and title of a crawled page -/

/-- Refutation of C9 as stated: an anchor-linked string whose resolved URL
does not extend the page URL is dropped entirely — "string resolved-URL" is
not part of the visible text (here the extracted content is empty). -/
theorem c9_counterexample :
    PageStr.anchored "click" "http://other/x"
      ∈ (Page.mk [PageStr.anchored "click" "http://other/x"] []).strings ∧
    (crawlOne fetchExt (DocObject.mk "9" "http://me")).content = some "" ∧
    strHasSub ("click" ++ " " ++ "http://other/x") "" = false := by
  decide

/-- C9 (amended): the visible text of a successfully crawled page is the
newline join of its kept strings, where an anchor-linked string is kept — as
`"{string} {href}"` — exactly when its resolved absolute URL starts with the
source URL (anchored strings resolving elsewhere are dropped entirely); in
particular every same-prefix anchored string occurs with its URL as a
substring of the content; the title metadata is the text of the first
`<title>` element, falling back to the source URL. -/
theorem c9_crawl_text (fetch : String → Except String Page)
    (url_obj : DocObject) (p : Page)
    (h : fetch url_obj.source = Except.ok p) :
    (crawlOne fetch url_obj).content
      = some (joinNL (crawlTextList url_obj.source p.strings)) ∧
    (∀ s href : String, PageStr.anchored s href ∈ p.strings →
      pyStartsWith href url_obj.source = true →
      strHasSub (s ++ " " ++ href) (extractText url_obj.source p) = true) ∧
    alookup (crawlOne fetch url_obj).metadata "title"
      = some (match p.titles with | [] => url_obj.source | t :: _ => t) := by
  refine ⟨?_, ?_, ?_⟩
  · unfold crawlOne
    rw [h]
    rfl
  · intro s href hmem hsw
    exact mem_joinNL _ _ (mem_crawlTextList url_obj.source s href p.strings hmem hsw)
  · unfold crawlOne
    rw [h]
    unfold pageTitle alookup
    cases p.titles <;> simp

/-- Witness for C9 (amended) at a concrete page mixing same-site anchors,
foreign anchors, whitespace and plain strings. -/
theorem c9_crawl_text_witness :
    (crawlOne fetchMix (DocObject.mk "m" "http://me")).content
      = some "in http://me/a\nbody" ∧
    strHasSub ("in" ++ " " ++ "http://me/a")
      (extractText "http://me"
        (Page.mk [PageStr.anchored "in" "http://me/a",
          PageStr.anchored "out" "http://x/b", PageStr.plain "  ",
          PageStr.plain "body"] ["Ti", "T2"])) = true ∧
    alookup (crawlOne fetchMix (DocObject.mk "m" "http://me")).metadata "title"
      = some "Ti" := by
  have h := c9_crawl_text fetchMix (DocObject.mk "m" "http://me")
    (Page.mk [PageStr.anchored "in" "http://me/a",
      PageStr.anchored "out" "http://x/b", PageStr.plain "  ",
      PageStr.plain "body"] ["Ti", "T2"]) rfl
  refine ⟨?_, h.2.1 "in" "http://me/a" (by decide) (by decide), ?_⟩
  · rw [h.1]; decide
  · rw [h.2.2]

/-! # Lexicographic string order (Python `sorted`) -/

theorem lexLe_total : ∀ a b : List Char, lexLe a b = true ∨ lexLe b a = true := by
  intro a
  induction a with
  | nil => intro b; left; simp [lexLe]
  | cons x xs ih =>
    intro b
    cases b with
    | nil => right; simp [lexLe]
    | cons y ys =>
      simp only [lexLe]
      rcases Nat.lt_trichotomy x.toNat y.toNat with h | h | h
      · left; rw [if_pos h]
      · have hxy : ¬ x.toNat < y.toNat := by omega
        have hyx : ¬ y.toNat < x.toNat := by omega
        rw [if_neg hxy, if_neg hyx, if_neg hyx, if_neg hxy]
        exact ih ys
      · right; rw [if_pos h]

theorem lexLe_trans : ∀ a b c : List Char,
    lexLe a b = true → lexLe b c = true → lexLe a c = true := by
  intro a
  induction a with
  | nil => intro b c _ _; simp [lexLe]
  | cons x xs ih =>
    intro b c hab hbc
    cases b with
    | nil => simp [lexLe] at hab
    | cons y ys =>
      cases c with
      | nil => simp [lexLe] at hbc
      | cons z zs =>
        simp only [lexLe] at hab hbc ⊢
        rcases Nat.lt_trichotomy x.toNat y.toNat with h1 | h1 | h1
        · have hyz : y.toNat ≤ z.toNat := by
            by_contra hcon
            push_neg at hcon
            rw [if_neg (by omega), if_pos (by omega)] at hbc
            simp at hbc
          rw [if_pos (by omega)]
        · rw [if_neg (by omega), if_neg (by omega)] at hab
          rcases Nat.lt_trichotomy y.toNat z.toNat with h2 | h2 | h2
          · rw [if_pos (by omega)]
          · rw [if_neg (by omega), if_neg (by omega)] at hbc
            rw [if_neg (by omega), if_neg (by omega)]
            exact ih ys zs hab hbc
          · rw [if_neg (by omega), if_pos (by omega)] at hbc
            simp at hbc
        · rw [if_neg (by omega), if_pos (by omega)] at hab
          simp at hab

theorem lexLe_antisymm : ∀ a b : List Char,
    lexLe a b = true → lexLe b a = true → a = b := by
  intro a
  induction a with
  | nil =>
    intro b hab hba
    cases b with
    | nil => rfl
    | cons y ys => simp [lexLe] at hba
  | cons x xs ih =>
    intro b hab hba
    cases b with
    | nil => simp [lexLe] at hab
    | cons y ys =>
      simp only [lexLe] at hab hba
      rcases Nat.lt_trichotomy x.toNat y.toNat with h | h | h
      · rw [if_neg (by omega), if_pos (by omega)] at hba
        simp at hba
      · have hxy : x = y := Char.ext (UInt32.ext h)
        subst hxy
        rw [if_neg (by omega), if_neg (by omega)] at hab hba
        rw [ih ys hab hba]
      · rw [if_neg (by omega), if_pos (by omega)] at hab
        simp at hab

instance : IsTotal String strLeP :=
  ⟨fun a b => lexLe_total a.data b.data⟩

instance : IsTrans String strLeP :=
  ⟨fun a b c hab hbc => lexLe_trans a.data b.data c.data hab hbc⟩

instance : IsAntisymm String strLeP := by
  refine ⟨fun a b hab hba => ?_⟩
  have hd := lexLe_antisymm a.data b.data hab hba
  cases a
  cases b
  simp only at hd
  rw [hd]

theorem pySorted_sorted (l : List String) : List.Sorted strLeP (pySorted l) :=
  List.sorted_insertionSort strLeP l

theorem pySorted_perm (l : List String) : (pySorted l).Perm l :=
  List.perm_insertionSort strLeP l

theorem pySorted_eq_of_perm {l1 l2 : List String} (h : l1.Perm l2) :
    pySorted l1 = pySorted l2 :=
  List.eq_of_perm_of_sorted
    (((pySorted_perm l1).trans h).trans (pySorted_perm l2).symm)
    (pySorted_sorted l1) (pySorted_sorted l2)

theorem pySorted_mem {l : List String} {x : String} :
    x ∈ pySorted l ↔ x ∈ l :=
  (pySorted_perm l).mem_iff

/-! # Deduplicating reorderings (Python `list(set(...))`) -/

theorem mem_foldl_addNode :
    ∀ (l acc : List String) (x : String),
      x ∈ l.foldl addNode acc ↔ x ∈ acc ∨ x ∈ l := by
  intro l
  induction l with
  | nil => intro acc x; simp
  | cons a as ih =>
    intro acc x
    simp only [List.foldl_cons, ih, addNode]
    by_cases ha : a ∈ acc
    · simp only [ha, if_true, ite_true, List.mem_cons]
      constructor
      · rintro (hx | hx)
        · exact Or.inl hx
        · exact Or.inr (Or.inr hx)
      · rintro (hx | hx | hx)
        · exact Or.inl hx
        · exact Or.inl (hx ▸ ha)
        · exact Or.inr hx
    · simp only [ha, if_false, ite_false, List.mem_append, List.mem_singleton,
        List.mem_cons]
      tauto

theorem nodup_foldl_addNode :
    ∀ (l acc : List String), acc.Nodup → (l.foldl addNode acc).Nodup := by
  intro l
  induction l with
  | nil => intro acc h; exact h
  | cons a as ih =>
    intro acc h
    simp only [List.foldl_cons, addNode]
    by_cases ha : a ∈ acc
    · simp only [ha, if_true, ite_true]
      exact ih acc h
    · simp only [ha, if_false, ite_false]
      refine ih _ (List.Nodup.append h (List.nodup_singleton a) ?_)
      intro x hx hxa
      rw [List.mem_singleton] at hxa
      exact ha (hxa ▸ hx)

theorem dedupFirst_mem {l : List String} {x : String} :
    x ∈ dedupFirst l ↔ x ∈ l := by
  unfold dedupFirst
  rw [mem_foldl_addNode]
  simp

theorem dedupFirst_nodup (l : List String) : (dedupFirst l).Nodup :=
  nodup_foldl_addNode l [] List.nodup_nil

theorem reorderA_setLike : SetLike reorderA := by
  intro l
  exact ⟨fun x => dedupFirst_mem, dedupFirst_nodup l⟩

theorem rotL_perm : ∀ l : List String, (rotL l).Perm l := by
  intro l
  cases l with
  | nil => exact List.Perm.refl []
  | cons a t => exact List.perm_append_singleton a t

theorem reorderB_setLike : SetLike reorderB := by
  intro l
  unfold reorderB
  constructor
  · intro x
    rw [(rotL_perm (dedupFirst l)).mem_iff]
    exact dedupFirst_mem
  · exact (rotL_perm (dedupFirst l)).nodup_iff.mpr (dedupFirst_nodup l)

/-! # Unfolding and invariant lemmas for the discovery loop -/

theorem crawlLoop_nil (links : String → List String)
    (reorder : List String → List String) (base_url : String) (max_num : Int)
    (visited : List String) :
    crawlLoop links reorder base_url max_num visited [] = visited := by
  rw [crawlLoop]

theorem crawlLoop_stop {links : String → List String}
    {reorder : List String → List String} {base_url : String} {max_num : Int}
    {visited : List String} {c : String} {rest : List String}
    (h : max_num ≤ (visited.length : Int)) :
    crawlLoop links reorder base_url max_num visited (c :: rest) = visited := by
  rw [crawlLoop]
  simp [h]

theorem crawlLoop_skip {links : String → List String}
    {reorder : List String → List String} {base_url : String} {max_num : Int}
    {visited : List String} {c : String} {rest : List String}
    (h1 : ¬ max_num ≤ (visited.length : Int)) (h2 : c ∈ visited) :
    crawlLoop links reorder base_url max_num visited (c :: rest)
      = crawlLoop links reorder base_url max_num visited rest := by
  rw [crawlLoop]
  simp [h1, h2]

theorem crawlLoop_grow {links : String → List String}
    {reorder : List String → List String} {base_url : String} {max_num : Int}
    {visited : List String} {c : String} {rest : List String}
    (h1 : ¬ max_num ≤ (visited.length : Int)) (h2 : c ∉ visited) :
    crawlLoop links reorder base_url max_num visited (c :: rest)
      = crawlLoop links reorder base_url max_num (visited ++ [c])
          (reorder (rest ++ get_outsource_urls links reorder c base_url)) := by
  rw [crawlLoop]
  simp [h1, h2]

theorem crawlLoop_extends (links : String → List String)
    (reorder : List String → List String) (base_url : String) (max_num : Int) :
    ∀ visited queue : List String,
      ∃ ext, crawlLoop links reorder base_url max_num visited queue
        = visited ++ ext := by
  intro visited queue
  induction visited, queue using crawlLoop.induct links reorder base_url max_num
  · exact ⟨[], by rw [crawlLoop_nil]; simp⟩
  · next visited c rest h =>
    exact ⟨[], by rw [crawlLoop_stop h]; simp⟩
  · next visited c rest h1 h2 ih =>
    obtain ⟨ext, hext⟩ := ih
    exact ⟨ext, by rw [crawlLoop_skip h1 h2, hext]⟩
  · next visited c rest h1 h2 ih =>
    obtain ⟨ext, hext⟩ := ih
    refine ⟨c :: ext, ?_⟩
    rw [crawlLoop_grow h1 h2, hext]
    simp

theorem crawlLoop_nodup (links : String → List String)
    (reorder : List String → List String) (base_url : String) (max_num : Int) :
    ∀ visited queue : List String, visited.Nodup →
      (crawlLoop links reorder base_url max_num visited queue).Nodup := by
  intro visited queue
  induction visited, queue using crawlLoop.induct links reorder base_url max_num
  · intro h; rw [crawlLoop_nil]; exact h
  · next visited c rest h =>
    intro hv; rw [crawlLoop_stop h]; exact hv
  · next visited c rest h1 h2 ih =>
    intro hv; rw [crawlLoop_skip h1 h2]; exact ih hv
  · next visited c rest h1 h2 ih =>
    intro hv
    rw [crawlLoop_grow h1 h2]
    refine ih (List.Nodup.append hv (List.nodup_singleton c) ?_)
    intro x hx hxc
    rw [List.mem_singleton] at hxc
    exact h2 (hxc ▸ hx)

theorem out_check {links : String → List String}
    {reorder : List String → List String} {base_url : String}
    (hR : ∀ l x, x ∈ reorder l → x ∈ l) :
    ∀ curr x, x ∈ get_outsource_urls links reorder curr base_url →
      check_url x base_url = true := by
  intro curr x hx
  unfold get_outsource_urls at hx
  have hmem := hR _ _ hx
  obtain ⟨h, _, hfx⟩ := List.mem_filterMap.mp hmem
  simp only at hfx
  by_cases hc : check_url (normalizeUrl h) base_url
  · rw [if_pos hc] at hfx
    injection hfx with he
    exact he ▸ hc
  · rw [if_neg hc] at hfx
    cases hfx

theorem crawlLoop_prop {links : String → List String}
    {reorder : List String → List String} {base_url : String} {max_num : Int}
    (P : String → Prop)
    (hR : ∀ l x, x ∈ reorder l → x ∈ l)
    (hout : ∀ curr x, x ∈ get_outsource_urls links reorder curr base_url → P x) :
    ∀ visited queue : List String, (∀ x ∈ visited, P x) → (∀ x ∈ queue, P x) →
      ∀ x ∈ crawlLoop links reorder base_url max_num visited queue, P x := by
  intro visited queue
  induction visited, queue using crawlLoop.induct links reorder base_url max_num
  · intro hv _ x hx; rw [crawlLoop_nil] at hx; exact hv x hx
  · next visited c rest h =>
    intro hv _ x hx; rw [crawlLoop_stop h] at hx; exact hv x hx
  · next visited c rest h1 h2 ih =>
    intro hv hq x hx
    rw [crawlLoop_skip h1 h2] at hx
    exact ih hv (fun y hy => hq y (List.mem_cons_of_mem c hy)) x hx
  · next visited c rest h1 h2 ih =>
    intro hv hq x hx
    rw [crawlLoop_grow h1 h2] at hx
    refine ih ?_ ?_ x hx
    · intro y hy
      rcases List.mem_append.mp hy with hy | hy
      · exact hv y hy
      · rw [List.mem_singleton] at hy
        exact hy ▸ hq c (List.mem_cons_self c rest)
    · intro y hy
      rcases List.mem_append.mp (hR _ _ hy) with hy | hy
      · exact hq y (List.mem_cons_of_mem c hy)
      · exact hout c y hy

/-! # Claim C6 — shape of the FrontierExplorer output -/

/-- Refutation of C6 as stated: the starting URL is never filtered, so a base
URL ending in a denylisted extension is returned as-is. -/
theorem c6_counterexample :
    get_all_urls linksW reorderA "http://x/a.pdf" 5 = ["http://x/a.pdf"] ∧
    pyEndsWith "http://x/a.pdf" ".pdf" = true ∧ ".pdf" ∈ kwList ∧
    SetLike reorderA := by
  refine ⟨?_, by decide, by decide, reorderA_setLike⟩
  have e : crawlLoop linksW reorderA "http://x/a.pdf" 5 [] ["http://x/a.pdf"]
      = ["http://x/a.pdf"] := by
    simp [crawlLoop, get_outsource_urls, linksW, reorderA, dedupFirst, addNode,
      check_url, normalizeUrl, beforeHash, rstripSlash, pyStartsWith, strHasSub,
      chSub, chPre, kwList]
  simp only [get_all_urls]
  rw [show normalizeUrl "http://x/a.pdf" = "http://x/a.pdf" from by decide, e]
  decide

/-- C6 (amended): for every link structure, membership-preserving `set`
order and natural `max_num`, the output of `get_all_urls` is sorted ascending
lexicographically, has length at most `max_num`, and every returned URL
starts with the normalized base URL; every returned URL other than the
normalized base contains no denylisted extension as a substring (the
normalized base itself bypasses `_check_url` and is exempt). -/
theorem c6_frontier_filter (links : String → List String)
    (reorder : List String → List String) (base_url : String) (mn : Nat)
    (hR : ∀ l x, x ∈ reorder l → x ∈ l) :
    List.Sorted strLeP (get_all_urls links reorder base_url (mn : Int)) ∧
    (get_all_urls links reorder base_url (mn : Int)).length ≤ mn ∧
    (∀ u ∈ get_all_urls links reorder base_url (mn : Int),
      pyStartsWith u (normalizeUrl base_url) = true ∧
      (u ≠ normalizeUrl base_url → ∀ kw ∈ kwList, strHasSub kw u = false)) := by
  refine ⟨pySorted_sorted _, ?_, ?_⟩
  · simp only [get_all_urls]
    have hlen := (pySorted_perm (pySlice
      (crawlLoop links reorder (normalizeUrl base_url) (mn : Int) []
        [normalizeUrl base_url]) (mn : Int))).length_eq
    rw [hlen]
    unfold pySlice
    rw [if_pos (by positivity)]
    simp
  · intro u hu
    simp only [get_all_urls] at hu
    rw [pySorted_mem] at hu
    have hu2 : u ∈ crawlLoop links reorder (normalizeUrl base_url) (mn : Int) []
        [normalizeUrl base_url] := by
      unfold pySlice at hu
      rw [if_pos (by positivity)] at hu
      exact List.take_subset _ _ hu
    have hP := crawlLoop_prop
      (fun x => x = normalizeUrl base_url ∨ check_url x (normalizeUrl base_url) = true)
      hR (fun curr x hx => Or.inr (out_check hR curr x hx))
      [] [normalizeUrl base_url] (by intro x hx; cases hx)
      (by intro x hx; rw [List.mem_singleton] at hx; exact Or.inl hx)
      u hu2
    rcases hP with hb | hc
    · subst hb
      exact ⟨chPre_refl _, fun hne => absurd rfl hne⟩
    · unfold check_url at hc
      simp only [Bool.and_eq_true, Bool.not_eq_true', decide_eq_false_iff_not,
        Bool.not_eq_false'] at hc
      refine ⟨hc.1.1.1, fun _ kw hkw => ?_⟩
      have hany := hc.1.2
      rw [List.any_eq_false] at hany
      simpa using hany kw hkw

/-- Witness for C6 (amended) at a concrete site of four pages with
`max_num = 2`. -/
theorem c6_frontier_filter_witness :
    List.Sorted strLeP (get_all_urls linksW reorderA "http://s" ((2 : Nat) : Int)) ∧
    (get_all_urls linksW reorderA "http://s" ((2 : Nat) : Int)).length ≤ 2 ∧
    (pyStartsWith "http://s/1" (normalizeUrl "http://s") = true ∧
      strHasSub ".pdf" "http://s/1" = false) := by
  have h := c6_frontier_filter linksW reorderA "http://s" 2
    (fun l x hx => ((reorderA_setLike l).1 x).mp hx)
  have e : crawlLoop linksW reorderA "http://s" ((2 : Nat) : Int) []
      ["http://s"] = ["http://s", "http://s/1"] := by
    simp [crawlLoop, get_outsource_urls, linksW, reorderA, dedupFirst, addNode,
      check_url, normalizeUrl, beforeHash, rstripSlash, pyStartsWith, strHasSub,
      chSub, chPre, kwList]
  have efull : get_all_urls linksW reorderA "http://s" ((2 : Nat) : Int)
      = ["http://s", "http://s/1"] := by
    simp only [get_all_urls]
    rw [show normalizeUrl "http://s" = "http://s" from by decide, e]
    decide
  have hmem : "http://s/1" ∈ get_all_urls linksW reorderA "http://s"
      ((2 : Nat) : Int) := by
    rw [efull]; decide
  have h3 := h.2.2 "http://s/1" hmem
  exact ⟨h.1, h.2.1, h3.1, h3.2 (by decide) ".pdf" (by decide)⟩

/-! # Claim C10 — the starting URL bypasses the filter -/

/-- C10: with `max_num ≤ 0` the output is empty; with `max_num ≥ 1` the
normalized base URL is always in the output, regardless of the link structure
and of the `set` iteration order, because the starting URL is enqueued
without passing `_check_url`. -/
theorem c10_base_bypasses_filter (links : String → List String)
    (reorder : List String → List String) (base_url : String) (max_num : Int) :
    (max_num ≤ 0 → get_all_urls links reorder base_url max_num = []) ∧
    (1 ≤ max_num →
      normalizeUrl base_url ∈ get_all_urls links reorder base_url max_num) := by
  constructor
  · intro h
    simp only [get_all_urls]
    rw [crawlLoop_stop (by simpa using h)]
    simp [pySlice, pySorted, List.insertionSort]
  · intro h
    simp only [get_all_urls]
    rw [crawlLoop_grow (by simp; omega) (List.not_mem_nil _)]
    simp only [List.nil_append]
    obtain ⟨ext, hext⟩ := crawlLoop_extends links reorder (normalizeUrl base_url)
      max_num [normalizeUrl base_url]
      (reorder (get_outsource_urls links reorder (normalizeUrl base_url)
        (normalizeUrl base_url)))
    rw [hext, pySorted_mem]
    unfold pySlice
    rw [if_pos (by omega)]
    have hsucc : max_num.toNat = (max_num.toNat - 1) + 1 := by omega
    rw [hsucc]
    simp

/-- Witness for C10: a base URL that itself carries a denylisted extension is
still returned when `max_num = 1`, and `max_num = 0` yields the empty
list. -/
theorem c10_base_bypasses_filter_witness :
    get_all_urls linksW reorderA "http://x/a.pdf" 0 = [] ∧
    normalizeUrl "http://x/a.pdf" ∈ get_all_urls linksW reorderA "http://x/a.pdf" 1 ∧
    strHasSub ".pdf" (normalizeUrl "http://x/a.pdf") = true :=
  ⟨(c10_base_bypasses_filter linksW reorderA "http://x/a.pdf" 0).1 (by omega),
   (c10_base_bypasses_filter linksW reorderA "http://x/a.pdf" 1).2 (by omega),
   by decide⟩

/-! # Claim C3 — (non-)determinism of the discovery output -/

/-- Refutation of C3 as stated: two membership- and nodup-preserving `set`
iteration orders over the same link structure yield different outputs when
`max_num` truncates the exploration. -/
theorem c3_counterexample :
    SetLike reorderA ∧ SetLike reorderB ∧
    get_all_urls linksW reorderA "http://s" 2
      ≠ get_all_urls linksW reorderB "http://s" 2 := by
  refine ⟨reorderA_setLike, reorderB_setLike, ?_⟩
  have eA : crawlLoop linksW reorderA "http://s" 2 [] ["http://s"]
      = ["http://s", "http://s/1"] := by
    simp [crawlLoop, get_outsource_urls, linksW, reorderA, dedupFirst, addNode,
      check_url, normalizeUrl, beforeHash, rstripSlash, pyStartsWith, strHasSub,
      chSub, chPre, kwList]
  have eB : crawlLoop linksW reorderB "http://s" 2 [] ["http://s"]
      = ["http://s", "http://s/3"] := by
    simp [crawlLoop, get_outsource_urls, linksW, reorderB, rotL, dedupFirst,
      addNode, check_url, normalizeUrl, beforeHash, rstripSlash, pyStartsWith,
      strHasSub, chSub, chPre, kwList]
  simp only [get_all_urls]
  rw [show normalizeUrl "http://s" = "http://s" from by decide, eA, eB]
  decide

/-- C3 (amended): the queue rebuild `list(set(...))` makes the visited set
depend on `set` iteration order whenever `max_num` truncates the search, so
the output is not deterministic in general; but two runs that visit the same
set of URLs, of size at most `max_num`, return the same sorted list — in
particular the final sort makes the output independent of the order in which
that same visited set was discovered. -/
theorem c3_deterministic_output (links : String → List String)
    (r1 r2 : List String → List String) (base_url : String) (mn : Nat)
    (hmem : ∀ x,
      x ∈ crawlLoop links r1 (normalizeUrl base_url) (mn : Int) []
            [normalizeUrl base_url] ↔
      x ∈ crawlLoop links r2 (normalizeUrl base_url) (mn : Int) []
            [normalizeUrl base_url])
    (hlen : (crawlLoop links r1 (normalizeUrl base_url) (mn : Int) []
      [normalizeUrl base_url]).length ≤ mn) :
    get_all_urls links r1 base_url (mn : Int)
      = get_all_urls links r2 base_url (mn : Int) := by
  have n1 := crawlLoop_nodup links r1 (normalizeUrl base_url) (mn : Int) []
    [normalizeUrl base_url] List.nodup_nil
  have n2 := crawlLoop_nodup links r2 (normalizeUrl base_url) (mn : Int) []
    [normalizeUrl base_url] List.nodup_nil
  have hperm := (List.perm_ext_iff_of_nodup n1 n2).mpr hmem
  have hlen2 : (crawlLoop links r2 (normalizeUrl base_url) (mn : Int) []
      [normalizeUrl base_url]).length ≤ mn := hperm.length_eq ▸ hlen
  simp only [get_all_urls]
  have s1 : pySlice (crawlLoop links r1 (normalizeUrl base_url) (mn : Int) []
      [normalizeUrl base_url]) (mn : Int)
      = crawlLoop links r1 (normalizeUrl base_url) (mn : Int) []
          [normalizeUrl base_url] := by
    unfold pySlice
    rw [if_pos (by positivity)]
    exact List.take_of_length_le (by simpa using hlen)
  have s2 : pySlice (crawlLoop links r2 (normalizeUrl base_url) (mn : Int) []
      [normalizeUrl base_url]) (mn : Int)
      = crawlLoop links r2 (normalizeUrl base_url) (mn : Int) []
          [normalizeUrl base_url] := by
    unfold pySlice
    rw [if_pos (by positivity)]
    exact List.take_of_length_le (by simpa using hlen2)
  rw [s1, s2]
  exact pySorted_eq_of_perm hperm

/-- Witness for C3 (amended): with `max_num = 4` the two `set` orders visit
the same four URLs in different orders, and the outputs agree. -/
theorem c3_deterministic_output_witness :
    get_all_urls linksW reorderA "http://s" ((4 : Nat) : Int)
      = get_all_urls linksW reorderB "http://s" ((4 : Nat) : Int) := by
  have eA : crawlLoop linksW reorderA (normalizeUrl "http://s") ((4 : Nat) : Int)
      [] [normalizeUrl "http://s"]
      = ["http://s", "http://s/1", "http://s/2", "http://s/3"] := by
    rw [show normalizeUrl "http://s" = "http://s" from by decide]
    simp [crawlLoop, get_outsource_urls, linksW, reorderA, dedupFirst, addNode,
      check_url, normalizeUrl, beforeHash, rstripSlash, pyStartsWith, strHasSub,
      chSub, chPre, kwList]
  have eB : crawlLoop linksW reorderB (normalizeUrl "http://s") ((4 : Nat) : Int)
      [] [normalizeUrl "http://s"]
      = ["http://s", "http://s/3", "http://s/2", "http://s/1"] := by
    rw [show normalizeUrl "http://s" = "http://s" from by decide]
    simp [crawlLoop, get_outsource_urls, linksW, reorderB, rotL, dedupFirst,
      addNode, check_url, normalizeUrl, beforeHash, rstripSlash, pyStartsWith,
      strHasSub, chSub, chPre, kwList]
  refine c3_deterministic_output linksW reorderA reorderB "http://s" 4 ?_ ?_
  · intro x
    rw [eA, eB]
    simp only [List.mem_cons, List.not_mem_nil, or_false]
    tauto
  · rw [eA]
    decide

/-! # Dict and graph lemmas for the ranker -/

theorem getLast_opt_cons {α : Type} (a : α) (l : List α) :
    (a :: l).getLast? = match l.getLast? with
      | some y => some y
      | none => some a := by
  cases l with
  | nil => simp
  | cons b t =>
    rw [List.getLast?_cons_cons]
    cases h : (b :: t).getLast? with
    | none =>
      exact absurd (List.getLast?_eq_none_iff.mp h) (by simp)
    | some y => rfl

theorem alookup_dictUpd (m : List (String × String)) (k v k' : String) :
    alookup (dictUpd m k v) k' = if k' = k then some v else alookup m k' := by
  induction m with
  | nil =>
    show (if k = k' then some v else alookup [] k') = _
    by_cases hk : k' = k
    · rw [if_pos hk.symm, if_pos hk]
    · rw [if_neg (fun h => hk h.symm), if_neg hk]
  | cons p rest ih =>
    obtain ⟨k0, v0⟩ := p
    by_cases h0 : k0 = k
    · rw [show dictUpd ((k0, v0) :: rest) k v = (k0, v) :: rest from by
        simp [dictUpd, h0]]
      subst h0
      show (if k0 = k' then some v else alookup rest k') = _
      by_cases hk : k' = k0
      · rw [if_pos hk.symm, if_pos hk]
      · rw [if_neg (fun h => hk h.symm), if_neg hk]
        show alookup rest k'
          = if k0 = k' then some v0 else alookup rest k'
        rw [if_neg (fun h => hk h.symm)]
    · rw [show dictUpd ((k0, v0) :: rest) k v = (k0, v0) :: dictUpd rest k v from by
        simp [dictUpd, h0]]
      show (if k0 = k' then some v0 else alookup (dictUpd rest k v) k') = _
      by_cases hk0 : k0 = k'
      · rw [if_pos hk0]
        have hk : ¬ k' = k := fun h => h0 (hk0.trans h)
        rw [if_neg hk]
        show some v0 = if k0 = k' then some v0 else alookup rest k'
        rw [if_pos hk0]
      · rw [if_neg hk0, ih]
        by_cases hk : k' = k
        · rw [if_pos hk, if_pos hk]
        · rw [if_neg hk, if_neg hk]
          show alookup rest k' = if k0 = k' then some v0 else alookup rest k'
          rw [if_neg hk0]

theorem lastSourceId_cons (u : CrawledObject) (us : List CrawledObject) (s : String) :
    lastSourceId (u :: us) s =
      if u.source = s then
        (match lastSourceId us s with
          | some i => some i
          | none => some u.id)
      else lastSourceId us s := by
  unfold lastSourceId
  by_cases h : u.source = s
  · rw [if_pos h]
    rw [List.filter_cons, if_pos (by simp [h])]
    rw [List.map_cons, getLast_opt_cons]
    cases (List.map (fun u => u.id)
      (List.filter (fun u => decide (u.source = s)) us)).getLast? <;> rfl
  · rw [if_neg h]
    rw [List.filter_cons, if_neg (by simp [h])]

theorem url_mapping_fold (s : String) :
    ∀ (us : List CrawledObject) (m : List (String × String)),
      alookup (us.foldl (fun m u => dictUpd m u.source u.id) m) s =
        match lastSourceId us s with
        | some i => some i
        | none => alookup m s := by
  intro us
  induction us with
  | nil => intro m; simp [lastSourceId]
  | cons u us ih =>
    intro m
    rw [List.foldl_cons, ih, lastSourceId_cons]
    by_cases h : u.source = s
    · rw [if_pos h]
      cases hl : lastSourceId us s with
      | none =>
        simp only [alookup_dictUpd]
        rw [if_pos h.symm]
      | some i => simp
    · rw [if_neg h]
      cases hl : lastSourceId us s with
      | none =>
        simp only [alookup_dictUpd]
        rw [if_neg (fun hc => h hc.symm)]
      | some i => simp

theorem url_mapping_lookup (urls : List CrawledObject) (s : String) :
    alookup (url_to_id_mapping urls) s = lastSourceId urls s := by
  unfold url_to_id_mapping
  rw [url_mapping_fold s urls []]
  cases hl : lastSourceId urls s <;> simp [alookup]

theorem dictUpd_keys (m : List (String × String)) (k v : String) :
    (dictUpd m k v).map Prod.fst =
      if k ∈ m.map Prod.fst then m.map Prod.fst else m.map Prod.fst ++ [k] := by
  induction m with
  | nil => simp [dictUpd]
  | cons p rest ih =>
    obtain ⟨k0, v0⟩ := p
    by_cases h0 : k0 = k
    · subst h0
      simp [dictUpd]
    · simp only [dictUpd, h0, if_false, ite_false, List.map_cons]
      rw [ih]
      by_cases hk : k ∈ rest.map Prod.fst
      · have hmem : k ∈ k0 :: rest.map Prod.fst := List.mem_cons_of_mem k0 hk
        rw [if_pos hk, if_pos hmem]
      · have hmem : ¬ k ∈ k0 :: rest.map Prod.fst := by
          rw [List.mem_cons]
          rintro (h | h)
          · exact h0 h.symm
          · exact hk h
        rw [if_neg hk, if_neg hmem]
        rfl

theorem dictUpd_keys_nodup (m : List (String × String)) (k v : String)
    (h : (m.map Prod.fst).Nodup) : ((dictUpd m k v).map Prod.fst).Nodup := by
  rw [dictUpd_keys]
  by_cases hk : k ∈ m.map Prod.fst
  · rw [if_pos hk]; exact h
  · rw [if_neg hk]
    refine List.Nodup.append h (List.nodup_singleton k) ?_
    intro x hx hxk
    rw [List.mem_singleton] at hxk
    exact hk (hxk ▸ hx)

theorem mapping_keys_nodup (urls : List CrawledObject) :
    ((url_to_id_mapping urls).map Prod.fst).Nodup := by
  unfold url_to_id_mapping
  have h : ∀ (us : List CrawledObject) (m : List (String × String)),
      (m.map Prod.fst).Nodup →
      ((us.foldl (fun m u => dictUpd m u.source u.id) m).map Prod.fst).Nodup := by
    intro us
    induction us with
    | nil => intro m hm; exact hm
    | cons u us ih =>
      intro m hm
      rw [List.foldl_cons]
      exact ih _ (dictUpd_keys_nodup m u.source u.id hm)
  exact h urls [] List.nodup_nil

theorem mem_assoc_iff_alookup :
    ∀ (m : List (String × String)) (k v : String), (m.map Prod.fst).Nodup →
      ((k, v) ∈ m ↔ alookup m k = some v) := by
  intro m
  induction m with
  | nil => intro k v _; simp [alookup]
  | cons p rest ih =>
    intro k v hnd
    obtain ⟨k0, v0⟩ := p
    rw [List.map_cons, List.nodup_cons] at hnd
    by_cases hk : k0 = k
    · subst hk
      simp only [alookup, if_pos rfl, ite_true, List.mem_cons]
      constructor
      · rintro (heq | hmem)
        · injection heq.symm with h1 h2; rw [h2]
        · exact absurd (List.mem_map.mpr ⟨(k0, v), hmem, rfl⟩) hnd.1
      · intro hv
        injection hv with hv
        exact Or.inl (by rw [hv])
    · simp only [alookup, hk, if_false, ite_false, List.mem_cons]
      rw [← ih k v hnd.2]
      constructor
      · rintro (heq | hmem)
        · injection heq with h1 h2; exact absurd h1.symm hk
        · exact hmem
      · exact Or.inr

theorem mem_buildEdges (urls : List CrawledObject) (a b : String) :
    ((a, b) ∈ buildEdges urls) ↔
      ∃ A ∈ urls, A.is_error = false ∧ A.id = a ∧
        ∃ s, lastSourceId urls s = some b ∧
          strHasSub s (A.content.getD "") = true := by
  unfold buildEdges
  rw [List.mem_flatMap]
  constructor
  · rintro ⟨u, hu, hmem⟩
    rw [List.mem_filter] at hu
    obtain ⟨p, hp, hif⟩ := List.mem_filterMap.mp hmem
    obtain ⟨s, i⟩ := p
    simp only at hif
    by_cases hs : strHasSub s (u.content.getD "")
    · rw [if_pos hs] at hif
      simp only [Option.some.injEq, Prod.mk.injEq] at hif
      have halk : alookup (url_to_id_mapping urls) s = some i :=
        (mem_assoc_iff_alookup _ s i (mapping_keys_nodup urls)).mp hp
      rw [url_mapping_lookup] at halk
      refine ⟨u, hu.1, by simpa using hu.2, hif.1, s, ?_, hs⟩
      rw [← hif.2]
      exact halk
    · rw [if_neg hs] at hif
      cases hif
  · rintro ⟨A, hA, herr, rfl, s, hlast, hsub⟩
    refine ⟨A, List.mem_filter.mpr ⟨hA, by simp [herr]⟩, ?_⟩
    rw [List.mem_filterMap]
    refine ⟨(s, b), ?_, ?_⟩
    · rw [mem_assoc_iff_alookup _ s b (mapping_keys_nodup urls),
        url_mapping_lookup]
      exact hlast
    · simp only
      rw [if_pos hsub]

theorem foldl_addNode_pairs :
    ∀ (es : List (String × String)) (init : List String),
      es.foldl (fun acc e => addNode (addNode acc e.1) e.2) init =
        (es.flatMap (fun e => [e.1, e.2])).foldl addNode init := by
  intro es
  induction es with
  | nil => intro init; rfl
  | cons e rest ih =>
    intro init
    rw [List.foldl_cons, ih, List.flatMap_cons]
    rfl

theorem graphNodeIds_eq (urls : List CrawledObject) :
    graphNodeIds urls =
      dedupFirst (((urls.filter (fun u => !u.is_error)).map (fun u => u.id))
        ++ (buildEdges urls).flatMap (fun e => [e.1, e.2])) := by
  unfold graphNodeIds dedupFirst buildNodes
  rw [List.foldl_append, foldl_addNode_pairs]
  rw [List.map_map]
  rfl

theorem foldl_addNode_nodup_eq :
    ∀ (l acc : List String), (acc ++ l).Nodup → l.foldl addNode acc = acc ++ l := by
  intro l
  induction l with
  | nil => intro acc _; simp
  | cons a as ih =>
    intro acc hnd
    rw [List.foldl_cons]
    have ha : a ∉ acc := by
      rw [List.nodup_append] at hnd
      intro hmem
      exact hnd.2.2 hmem (List.mem_cons_self a as)
    rw [show addNode acc a = acc ++ [a] from by simp [addNode, ha]]
    rw [ih (acc ++ [a]) (by simpa using hnd)]
    simp

theorem foldl_addNode_sub_eq :
    ∀ (l acc : List String), (∀ x ∈ l, x ∈ acc) → l.foldl addNode acc = acc := by
  intro l
  induction l with
  | nil => intro acc _; rfl
  | cons a as ih =>
    intro acc hsub
    rw [List.foldl_cons]
    rw [show addNode acc a = acc from by
      simp [addNode, hsub a (List.mem_cons_self a as)]]
    exact ih acc (fun x hx => hsub x (List.mem_cons_of_mem a hx))

theorem filter_id_single :
    ∀ (l : List CrawledObject) (u : CrawledObject),
      (l.map (fun v => v.id)).Nodup → u ∈ l →
      l.filter (fun v => v.id = u.id) = [u] := by
  intro l
  induction l with
  | nil => intro u _ hu; cases hu
  | cons v vs ih =>
    intro u hnd hu
    rw [List.map_cons, List.nodup_cons] at hnd
    rcases List.mem_cons.mp hu with rfl | hmem
    · rw [List.filter_cons, if_pos (by simp)]
      have : vs.filter (fun w => w.id = u.id) = [] := by
        rw [List.filter_eq_nil_iff]
        intro w hw
        simp only [decide_eq_true_eq]
        intro hwid
        exact hnd.1 (List.mem_map.mpr ⟨w, hw, hwid⟩)
      rw [this]
    · have hne : ¬ v.id = u.id := by
        intro he
        exact hnd.1 (he ▸ List.mem_map.mpr ⟨u, hmem, rfl⟩)
      rw [List.filter_cons, if_neg (by simpa using hne)]
      exact ih u hnd.2 hmem

theorem foldl_lastMatch :
    ∀ (ns : List (String × CrawledObject)) (i : String) (acc : Option CrawledObject),
      ns.foldl (fun acc p => if p.1 = i then some p.2 else acc) acc =
        match (ns.filter (fun p => p.1 = i)).getLast? with
        | some p => some p.2
        | none => acc := by
  intro ns
  induction ns with
  | nil => intro i acc; rfl
  | cons p ps ih =>
    intro i acc
    rw [List.foldl_cons]
    by_cases hpi : p.1 = i
    · rw [if_pos hpi, ih]
      simp only [List.filter_cons, decide_eq_true_eq]
      rw [if_pos hpi, getLast_opt_cons]
      cases h : (ps.filter (fun q => decide (q.1 = i))).getLast? <;> simp
    · rw [if_neg hpi, ih]
      simp only [List.filter_cons, decide_eq_true_eq]
      rw [if_neg hpi]

theorem nodeData_of_nodup (urls : List CrawledObject) (u : CrawledObject)
    (hnd : ((urls.filter (fun v => !v.is_error)).map (fun v => v.id)).Nodup)
    (hu : u ∈ urls.filter (fun v => !v.is_error)) :
    nodeData urls u.id = some u := by
  unfold nodeData buildNodes
  rw [foldl_lastMatch]
  have hfm : ((urls.filter (fun v => !v.is_error)).map
        (fun v => (v.id, v))).filter (fun p => p.1 = u.id) =
      ((urls.filter (fun v => !v.is_error)).filter
        (fun v => v.id = u.id)).map (fun v => (v.id, v)) := by
    rw [List.filter_map]
    rfl
  rw [hfm, filter_id_single _ u hnd hu]
  rfl

/-! # Claim C1 — graph construction and candidate selection of the ranker -/

/-- Refutation of C1 as stated: in a batch where a non-error record's content
mentions an error record's source, the code adds an edge whose target is the
error record — the claimed "edge exactly when both endpoints are non-error"
fails — and the graph gains a data-less node for that target, so the node set
is not one node per non-error record. -/
theorem c1_counterexample :
    buildEdges urlsRank = [("a", "b")] ∧
    (∀ B ∈ urlsRank, B.id = "b" → B.is_error = true) ∧
    graphNodeIds urlsRank
      ≠ (urlsRank.filter (fun u => !u.is_error)).map (fun u => u.id) := by
  decide

/-- C1 (amended): the graph has one data-carrying node per non-error record
(keyed by id) plus a data-less node for every edge endpoint not among them;
there is an edge `(a, b)` exactly when a non-error record with id `a` has the
source string `s` of some record in its content and `b` is the id of the last
record of the batch whose source is `s` — `b` may belong to an error record.
When ids are unique and every edge target is a non-error id (e.g. when no
error record's source occurs in any content), the function returns the first
`top_k` non-error records in stable descending score order, and with `top_k`
at least the number of non-error records all of them are returned. The
hypothesis `hc` restricts to batches on which the Python code does not raise
(`url_key in url.content` requires non-error contents to be strings). -/
theorem c1_ranker (urls : List CrawledObject) (top_k : Nat) (pr : String → ℚ)
    (_hc : ∀ u ∈ urls, u.is_error = false → u.content ≠ none) :
    graphNodeIds urls =
      dedupFirst (((urls.filter (fun u => !u.is_error)).map (fun u => u.id))
        ++ (buildEdges urls).flatMap (fun e => [e.1, e.2])) ∧
    (∀ a b : String, (a, b) ∈ buildEdges urls ↔
      ∃ A ∈ urls, A.is_error = false ∧ A.id = a ∧
        ∃ s, lastSourceId urls s = some b ∧
          strHasSub s (A.content.getD "") = true) ∧
    (((urls.filter (fun u => !u.is_error)).map (fun u => u.id)).Nodup →
      (∀ a b : String, (a, b) ∈ buildEdges urls →
        b ∈ (urls.filter (fun u => !u.is_error)).map (fun u => u.id)) →
      get_candidates_websites pr urls top_k =
        (List.insertionSort (fun u v : CrawledObject => pr v.id ≤ pr u.id)
          (urls.filter (fun u => !u.is_error))).take top_k ∧
      ((urls.filter (fun u => !u.is_error)).length ≤ top_k →
        ∀ r ∈ urls, r.is_error = false →
          r ∈ get_candidates_websites pr urls top_k)) := by
  refine ⟨graphNodeIds_eq urls, fun a b => mem_buildEdges urls a b, ?_⟩
  intro hnd htg
  have hids : graphNodeIds urls
      = (urls.filter (fun u => !u.is_error)).map (fun u => u.id) := by
    rw [graphNodeIds_eq]
    unfold dedupFirst
    rw [List.foldl_append]
    rw [foldl_addNode_nodup_eq _ [] (by simpa using hnd)]
    rw [List.nil_append]
    refine foldl_addNode_sub_eq _ _ ?_
    intro x hx
    obtain ⟨e, he, hxe⟩ := List.mem_flatMap.mp hx
    obtain ⟨e1, e2⟩ := e
    rcases List.mem_cons.mp hxe with rfl | hxe
    · obtain ⟨A, hA, herr, rfl, _⟩ := (mem_buildEdges urls x e2).mp he
      exact List.mem_map.mpr ⟨A, List.mem_filter.mpr ⟨hA, by simp [herr]⟩, rfl⟩
    · rw [List.mem_singleton] at hxe
      exact hxe ▸ htg e1 e2 he
  have hmain : get_candidates_websites pr urls top_k =
      (List.insertionSort (fun u v : CrawledObject => pr v.id ≤ pr u.id)
        (urls.filter (fun u => !u.is_error))).take top_k := by
    simp only [get_candidates_websites]
    rw [hids, List.map_map]
    have hsort : List.insertionSort (fun p q : String × ℚ => q.2 ≤ p.2)
        ((urls.filter (fun u => !u.is_error)).map
          ((fun i => (i, pr i)) ∘ (fun u => u.id))) =
        (List.insertionSort (fun u v : CrawledObject => pr v.id ≤ pr u.id)
          (urls.filter (fun u => !u.is_error))).map
            (fun u => (u.id, pr u.id)) := by
      exact (List.map_insertionSort
        (fun u v : CrawledObject => pr v.id ≤ pr u.id)
        (fun p q : String × ℚ => q.2 ≤ p.2)
        (fun u => (u.id, pr u.id))
        (urls.filter (fun u => !u.is_error))
        (fun a _ b _ => Iff.rfl)).symm
    rw [hsort, ← List.map_take, List.map_map]
    have hsome : ((List.insertionSort (fun u v : CrawledObject =>
          pr v.id ≤ pr u.id) (urls.filter (fun u => !u.is_error))).take
            top_k).map ((fun p : String × ℚ => nodeData urls p.1) ∘
              (fun u => (u.id, pr u.id))) =
        ((List.insertionSort (fun u v : CrawledObject => pr v.id ≤ pr u.id)
          (urls.filter (fun u => !u.is_error))).take top_k).map some := by
      refine List.map_congr_left ?_
      intro u hu
      have hu2 : u ∈ urls.filter (fun v => !v.is_error) :=
        (List.mem_insertionSort _).mp (List.mem_of_mem_take hu)
      exact nodeData_of_nodup urls u hnd hu2
    rw [hsome, List.filterMap_map]
    exact List.filterMap_some _
  refine ⟨hmain, ?_⟩
  intro hlen r hr hrerr
  rw [hmain]
  rw [List.take_of_length_le (by rw [List.length_insertionSort]; exact hlen)]
  rw [List.mem_insertionSort]
  exact List.mem_filter.mpr ⟨hr, by simp [hrerr]⟩

/-- Witness for C1 (amended) at a clean two-record batch (unique ids, no
error-record targets) with tied scores. -/
theorem c1_ranker_witness :
    (∀ u ∈ urlsGood, u.is_error = false → u.content ≠ none) ∧
    get_candidates_websites prZero urlsGood 2 =
      (List.insertionSort (fun u v : CrawledObject => prZero v.id ≤ prZero u.id)
        (urlsGood.filter (fun u => !u.is_error))).take 2 := by
  have h := c1_ranker urlsGood 2 prZero (by decide)
  have htg : ∀ a b : String, (a, b) ∈ buildEdges urlsGood →
      b ∈ (urlsGood.filter (fun u => !u.is_error)).map (fun u => u.id) := by
    intro a b hab
    rw [show buildEdges urlsGood = [("a", "b")] from by decide] at hab
    rw [List.mem_singleton] at hab
    injection hab with h1 h2
    subst h2
    decide
  exact ⟨by decide, (h.2.2 (by decide) htg).1⟩

end Arklex
